import Mathlib

/-!
Verification development for the microcosm job/worker lifecycle core.

The Go sources embedded here (shallowly, as pure Lean functions):

* `servermaster/job_fsm.go` — the `JobFsm` with its three maps
  `pendingJobs`, `waitAckJobs`, `onlineJobs` and the operations
  `JobDispatched`, `IterPendingJobs`, `IterWaitAckJobs`, `JobOnline`,
  `JobOffline`, `JobDispatchFailed`, `JobCount`.
* `executor/runtime/runtime.go` — the cooperative poller `Runtime.Run`
  (one loop iteration is embedded as `runStep`).
* `pkg/meta/kvclient/mock/simple_mockclient.go` — `MetaMock` and
  `mockTxn.Commit`.

Go maps are embedded as association lists with unique keys; map reads,
writes and deletes become `assocGet`, `assocPut`, `assocDel`.  Go's
`range` over a map is embedded as structural recursion over the snapshot
of the entry list taken when the loop starts (the Go iteration order is
unspecified; every theorem below is insensitive to the chosen order, or
is stated per visited entry).
-/

/-- Association-list read, mirroring a Go map read `l[k]`. -/
def assocGet {α : Type} : List (String × α) → String → Option α
  | [], _ => none
  | (k₁, v) :: t, k => if k = k₁ then some v else assocGet t k

/-- Keys whose entry survives deletion of `k`, mirroring Go `delete(l, k)`. -/
def assocDel {α : Type} (l : List (String × α)) (k : String) : List (String × α) :=
  l.filter (fun p => p.1 ≠ k)

/-- Association-list write, mirroring a Go map write `l[k] = v`. -/
def assocPut {α : Type} (l : List (String × α)) (k : String) (v : α) : List (String × α) :=
  assocDel l k ++ [(k, v)]

/-- The list of keys of an association list. -/
def mapKeys {α : Type} (l : List (String × α)) : List String :=
  l.map Prod.fst

theorem mem_mapKeys {α : Type} {l : List (String × α)} {k : String} :
    k ∈ mapKeys l ↔ ∃ v, (k, v) ∈ l := by
  simp only [mapKeys, List.mem_map]
  constructor
  · rintro ⟨⟨a, b⟩, hab, rfl⟩
    exact ⟨b, hab⟩
  · rintro ⟨v, hv⟩
    exact ⟨(k, v), hv, rfl⟩

theorem assocGet_eq_none {α : Type} {l : List (String × α)} {k : String} :
    assocGet l k = none ↔ k ∉ mapKeys l := by
  induction l with
  | nil => simp [assocGet, mapKeys]
  | cons p t ih =>
    obtain ⟨k₁, v⟩ := p
    by_cases h : k = k₁
    · subst h
      simp [assocGet, mapKeys]
    · simp [assocGet, h, mapKeys, ih]

theorem mem_mapKeys_del {α : Type} {l : List (String × α)} {k k₁ : String} :
    k₁ ∈ mapKeys (assocDel l k) ↔ k₁ ∈ mapKeys l ∧ k₁ ≠ k := by
  simp only [mem_mapKeys, assocDel, List.mem_filter, decide_eq_true_eq]
  constructor
  · rintro ⟨v, hv, hne⟩
    exact ⟨⟨v, hv⟩, hne⟩
  · rintro ⟨⟨v, hv⟩, hne⟩
    exact ⟨v, hv, hne⟩

theorem mem_mapKeys_put {α : Type} {l : List (String × α)} {k k₁ : String} {v : α} :
    k₁ ∈ mapKeys (assocPut l k v) ↔ k₁ = k ∨ k₁ ∈ mapKeys l := by
  simp only [assocPut, mapKeys, List.map_append, List.mem_append]
  constructor
  · rintro (h | h)
    · right
      have := mem_mapKeys_del.mp (by simpa [mapKeys] using h)
      exact this.1
    · left
      simpa using h
  · rintro (rfl | h)
    · right; simp
    · by_cases hk : k₁ = k
      · right; simp [hk]
      · left
        have : k₁ ∈ mapKeys (assocDel l k) := mem_mapKeys_del.mpr ⟨h, hk⟩
        simpa [mapKeys] using this

theorem assocGet_append {α : Type} {l₁ l₂ : List (String × α)} {k : String} :
    assocGet (l₁ ++ l₂) k =
      (match assocGet l₁ k with
       | some v => some v
       | none => assocGet l₂ k) := by
  induction l₁ with
  | nil => simp [assocGet]
  | cons p t ih =>
    obtain ⟨k₁, v⟩ := p
    by_cases h : k = k₁ <;> simp [assocGet, h, ih]

theorem assocGet_del_self {α : Type} {l : List (String × α)} {k : String} :
    assocGet (assocDel l k) k = none := by
  rw [assocGet_eq_none, mem_mapKeys_del]
  simp

theorem assocDel_cons {α : Type} {k₂ k : String} {v : α} {t : List (String × α)} :
    assocDel ((k₂, v) :: t) k =
      if k₂ = k then assocDel t k else (k₂, v) :: assocDel t k := by
  by_cases h : k₂ = k <;> simp [assocDel, List.filter_cons, h]

theorem assocGet_del_ne {α : Type} {l : List (String × α)} {k k₁ : String}
    (h : k₁ ≠ k) : assocGet (assocDel l k) k₁ = assocGet l k₁ := by
  induction l with
  | nil => simp [assocDel]
  | cons p t ih =>
    obtain ⟨k₂, v⟩ := p
    rw [assocDel_cons]
    by_cases h₂ : k₂ = k
    · have h₃ : ¬k₁ = k₂ := by rw [h₂]; exact h
      simp [h₂, assocGet, h₃, ih, h]
    · by_cases h₃ : k₁ = k₂
      · simp [h₂, assocGet, h₃]
      · simp [h₂, assocGet, h₃, ih]

theorem assocGet_put_self {α : Type} {l : List (String × α)} {k : String} {v : α} :
    assocGet (assocPut l k v) k = some v := by
  simp [assocPut, assocGet_append, assocGet_del_self, assocGet]

theorem assocGet_put_ne {α : Type} {l : List (String × α)} {k k₁ : String} {v : α}
    (h : k₁ ≠ k) : assocGet (assocPut l k v) k₁ = assocGet l k₁ := by
  rw [assocPut, assocGet_append]
  rw [assocGet_del_ne h]
  cases hget : assocGet l k₁ with
  | none => simp [assocGet, h]
  | some w => simp

theorem assocDel_of_not_mem {α : Type} {l : List (String × α)} {k : String}
    (h : k ∉ mapKeys l) : assocDel l k = l := by
  induction l with
  | nil => rfl
  | cons p t ih =>
    obtain ⟨k₁, v⟩ := p
    simp only [mapKeys, List.map_cons, List.mem_cons, not_or] at h
    have h₁ : ¬k₁ = k := fun hk => h.1 hk.symm
    rw [assocDel_cons, if_neg h₁, ih (by simpa [mapKeys] using h.2)]

/-- Master (= job) identifier, `libModel.MasterID` in the source. -/
abbrev MasterID := String

/-- Worker identifier, `lib.WorkerID` in the source. -/
abbrev WorkerID := String

/-- The durable job descriptor `libModel.MasterMeta` (the fields listed by
the spec data model; `job_fsm.go` reads `ID`, `Tp`, `Config` and writes
`ID`). -/
structure MasterMeta where
  id : MasterID
  tp : Int
  nodeID : String
  epoch : Int
  addr : String
  initialized : Bool
  config : String
  statusCode : Int
deriving DecidableEq, Repr

/-- A `lib.WorkerHandle`; the FSM only uses its `ID()` accessor. -/
structure WorkerHandle where
  workerID : WorkerID
deriving DecidableEq, Repr

/-- The in-memory FSM entry `jobHolder` from `job_fsm.go`: an optional
worker handle, the master meta, and the failover flag. -/
structure jobHolder where
  workerHandle : Option WorkerHandle
  meta : MasterMeta
  addFromFailover : Bool
deriving DecidableEq, Repr

/-- Errors surfaced by the embedded operations (`pkg/errors`). -/
inductive GoError where
  | workerNotFound (id : WorkerID)
  | clusterResourceNotEnough
  | unknown (msg : String)
deriving DecidableEq, Repr

/-- The `JobFsm` state: the three maps `pendingJobs`, `waitAckJobs`,
`onlineJobs` of `job_fsm.go` (the `jobsMu` lock serialises every
operation, so each Go operation is one pure transition here). -/
structure JobFsm where
  pendingJobs : List (MasterID × MasterMeta)
  waitAckJobs : List (MasterID × jobHolder)
  onlineJobs : List (MasterID × jobHolder)
deriving DecidableEq, Repr

/-- `NewJobFsm`: all three maps empty. -/
def NewJobFsm : JobFsm := ⟨[], [], []⟩

/-- `JobFsm.JobDispatched`: store the job in `waitAckJobs` under `job.ID`
with the given failover flag and no worker handle. -/
def JobDispatched (fsm : JobFsm) (job : MasterMeta) (addFromFailover : Bool) : JobFsm :=
  { fsm with waitAckJobs := assocPut fsm.waitAckJobs job.id ⟨none, job, addFromFailover⟩ }

/-- `JobFsm.JobOnline`: if the worker id is absent from `waitAckJobs`,
return `ErrWorkerNotFound` (state untouched); otherwise move the entry to
`onlineJobs`, keeping the meta and recording the worker handle. -/
def JobOnline (fsm : JobFsm) (worker : WorkerHandle) : JobFsm × Option GoError :=
  match assocGet fsm.waitAckJobs worker.workerID with
  | none => (fsm, some (GoError.workerNotFound worker.workerID))
  | some job =>
    ({ fsm with
        onlineJobs := assocPut fsm.onlineJobs worker.workerID ⟨some worker, job.meta, false⟩
        waitAckJobs := assocDel fsm.waitAckJobs worker.workerID }, none)

/-- `JobFsm.JobOffline`: delete the worker's entry from `onlineJobs` or,
failing that, from `waitAckJobs` (unknown ids are ignored); when
`needFailover` holds, park the meta in `pendingJobs` under the same id. -/
def JobOffline (fsm : JobFsm) (worker : WorkerHandle) (needFailover : Bool) : JobFsm :=
  match assocGet fsm.onlineJobs worker.workerID with
  | some job =>
    let fsm₁ := { fsm with onlineJobs := assocDel fsm.onlineJobs worker.workerID }
    if needFailover then
      { fsm₁ with pendingJobs := assocPut fsm₁.pendingJobs worker.workerID job.meta }
    else fsm₁
  | none =>
    match assocGet fsm.waitAckJobs worker.workerID with
    | none => fsm
    | some job =>
      let fsm₁ := { fsm with waitAckJobs := assocDel fsm.waitAckJobs worker.workerID }
      if needFailover then
        { fsm₁ with pendingJobs := assocPut fsm₁.pendingJobs worker.workerID job.meta }
      else fsm₁

/-- `JobFsm.JobDispatchFailed`: move the worker's `waitAckJobs` entry back
to `pendingJobs`; unknown ids yield `ErrWorkerNotFound`. -/
def JobDispatchFailed (fsm : JobFsm) (worker : WorkerHandle) : JobFsm × Option GoError :=
  match assocGet fsm.waitAckJobs worker.workerID with
  | none => (fsm, some (GoError.workerNotFound worker.workerID))
  | some job =>
    ({ fsm with
        pendingJobs := assocPut fsm.pendingJobs worker.workerID job.meta
        waitAckJobs := assocDel fsm.waitAckJobs worker.workerID }, none)

/-- The dispatch callback handed to the two iterators: on success it
returns the new worker id. -/
abbrev DispatchFn := MasterMeta → Except GoError WorkerID

/-- One iteration of the `IterPendingJobs` loop body, for the visited
entry `(oldJobID, job)`: call `dispatchJobFn`; on error return it with the
state untouched; on success delete the old pending key, set `job.ID` to
the new id and store the job in `waitAckJobs` under the new id. -/
def iterPendingStep (df : DispatchFn) (fsm : JobFsm) (entry : MasterID × MasterMeta) :
    JobFsm × Option GoError :=
  match df entry.2 with
  | Except.error e => (fsm, some e)
  | Except.ok newId =>
    ({ fsm with
        pendingJobs := assocDel fsm.pendingJobs entry.1
        waitAckJobs := assocPut fsm.waitAckJobs newId ⟨none, { entry.2 with id := newId }, false⟩ },
      none)

/-- The `IterPendingJobs` loop over the snapshot of pending entries. -/
def iterPendingAux (df : DispatchFn) :
    List (MasterID × MasterMeta) → JobFsm → JobFsm × Option GoError
  | [], fsm => (fsm, none)
  | e :: rest, fsm =>
    match iterPendingStep df fsm e with
    | (fsm₁, none) => iterPendingAux df rest fsm₁
    | (fsm₁, some err) => (fsm₁, some err)

/-- `JobFsm.IterPendingJobs`. -/
def IterPendingJobs (fsm : JobFsm) (df : DispatchFn) : JobFsm × Option GoError :=
  iterPendingAux df fsm.pendingJobs fsm

/-- One iteration of the `IterWaitAckJobs` loop body for the visited entry:
entries without the failover flag are skipped; otherwise `dispatchJobFn`
is called, an error is returned immediately (state untouched), and only
after a successful call is `addFromFailover` set to `false`. -/
def iterWaitAckStep (df : DispatchFn) (fsm : JobFsm) (entry : MasterID × jobHolder) :
    JobFsm × Option GoError :=
  if entry.2.addFromFailover = false then (fsm, none)
  else
    match df entry.2.meta with
    | Except.error e => (fsm, some e)
    | Except.ok _ =>
      ({ fsm with
          waitAckJobs := assocPut fsm.waitAckJobs entry.1 { entry.2 with addFromFailover := false } },
        none)

/-- The `IterWaitAckJobs` loop over the snapshot of waitAck entries. -/
def iterWaitAckAux (df : DispatchFn) :
    List (MasterID × jobHolder) → JobFsm → JobFsm × Option GoError
  | [], fsm => (fsm, none)
  | e :: rest, fsm =>
    match iterWaitAckStep df fsm e with
    | (fsm₁, none) => iterWaitAckAux df rest fsm₁
    | (fsm₁, some err) => (fsm₁, some err)

/-- `JobFsm.IterWaitAckJobs`. -/
def IterWaitAckJobs (fsm : JobFsm) (df : DispatchFn) : JobFsm × Option GoError :=
  iterWaitAckAux df fsm.waitAckJobs fsm

/-- Modelled from the spec: the `pb.QueryJobResponse_JobStatus` enum (the
generated protobuf file is not part of the sources); the spec names the
statuses pending, dispatched, online and finished. -/
inductive JobStatus where
  | pending
  | dispatched
  | online
  | finished
deriving DecidableEq, Repr

/-- `JobFsm.JobCount`: the size of the map selected by `status`; the
`switch` default returns `0` for every other status. -/
def JobCount (fsm : JobFsm) (status : JobStatus) : Nat :=
  match status with
  | JobStatus.pending => fsm.pendingJobs.length
  | JobStatus.dispatched => fsm.waitAckJobs.length
  | JobStatus.online => fsm.onlineJobs.length
  | JobStatus.finished => 0

/-- The disjointness invariant of the spec: a master id appears in at most
one of the three maps. -/
def DisjointFsm (fsm : JobFsm) : Prop :=
  (∀ k ∈ mapKeys fsm.pendingJobs, k ∉ mapKeys fsm.waitAckJobs) ∧
  (∀ k ∈ mapKeys fsm.pendingJobs, k ∉ mapKeys fsm.onlineJobs) ∧
  (∀ k ∈ mapKeys fsm.waitAckJobs, k ∉ mapKeys fsm.onlineJobs)

instance (fsm : JobFsm) : Decidable (DisjointFsm fsm) := by
  unfold DisjointFsm; infer_instance

/-- A single id appears in at most one of the three maps. -/
def AtMostOneMap (fsm : JobFsm) (k : MasterID) : Prop :=
  ¬(k ∈ mapKeys fsm.pendingJobs ∧ k ∈ mapKeys fsm.waitAckJobs) ∧
  ¬(k ∈ mapKeys fsm.pendingJobs ∧ k ∈ mapKeys fsm.onlineJobs) ∧
  ¬(k ∈ mapKeys fsm.waitAckJobs ∧ k ∈ mapKeys fsm.onlineJobs)

instance (fsm : JobFsm) (k : MasterID) : Decidable (AtMostOneMap fsm k) := by
  unfold AtMostOneMap; infer_instance

/-- Task scheduling state of a container (`runtime.Runnable` / `runtime.Blocked`). -/
inductive TaskStatus where
  | runnable
  | blocked
deriving DecidableEq, Repr

/-- The result of `taskContainer.Poll` (the spec's `{Ready, Pending, Blocked}`). -/
inductive PollResult where
  | ready
  | polling
  | blocked
deriving DecidableEq, Repr

/-- Modelled from the spec: the executor's `taskContainer` (its file is not
among the sources; only `runtime.go` is).  `wakeReceived` abstracts the
atomic blocked slot: it records whether a concurrent wake-up arrived since
`Poll` started, which is exactly the condition under which `tryBlock`
fails to claim the slot. -/
structure taskContainer where
  tid : Nat
  status : TaskStatus
  wakeReceived : Bool
deriving DecidableEq, Repr

/-- Modelled from the spec: `taskContainer.tryBlock` atomically claims the
blocked slot; it succeeds (parking the task) exactly when no wake-up
arrived since `Poll` started. -/
def tryBlock (t : taskContainer) : Bool × taskContainer :=
  if t.wakeReceived then (false, t)
  else (true, { t with status := TaskStatus.blocked })

/-- Modelled from the spec: `taskContainer.setRunnable` marks the task runnable. -/
def setRunnable (t : taskContainer) : taskContainer :=
  { t with status := TaskStatus.runnable }

/-- One iteration of `Runtime.Run` from `executor/runtime/runtime.go`:
pop the queue head (idle when empty); poll it; when the poll result is
`Blocked` and `tryBlock` succeeds, `continue` — the container is parked
and the result's second component reports it; in every other case the
container is set runnable and pushed to the queue tail.  `pollFn`
abstracts the task's own `Poll` behaviour. -/
def runStep (pollFn : taskContainer → PollResult) (q : List taskContainer) :
    List taskContainer × Option taskContainer :=
  match q with
  | [] => (q, none)
  | t :: rest =>
    let status := pollFn t
    if status = PollResult.blocked then
      match tryBlock t with
      | (true, parked) => (rest, some parked)
      | (false, t₁) => (rest ++ [setRunnable t₁], none)
    else (rest ++ [setRunnable t], none)

/-- Modelled from the spec: a `metaclient.Op` (the `metaclient` package is
not among the sources): a put or a delete, with key and value bytes; a
delete op carries empty value bytes. -/
inductive OpKind where
  | putOp
  | deleteOp
deriving DecidableEq, Repr

/-- A queued transaction operation with its key and value bytes
(`op.KeyBytes()`, `op.ValueBytes()`). -/
structure Op where
  kind : OpKind
  key : String
  value : String
deriving DecidableEq, Repr

/-- The in-memory mock metastore `MetaMock` of `simple_mockclient.go`. -/
structure MetaMock where
  store : List (String × String)
  revision : Int
deriving DecidableEq, Repr

/-- `MetaMock.Put`: store the pair and bump the revision; it never fails. -/
def metaPut (m : MetaMock) (key value : String) : MetaMock × Option GoError :=
  ({ store := assocPut m.store key value, revision := m.revision + 1 }, none)

/-- `MetaMock.Delete`: remove the key and bump the revision. -/
def metaDelete (m : MetaMock) (key : String) : MetaMock × Option GoError :=
  ({ store := assocDel m.store key, revision := m.revision + 1 }, none)

/-- The loop of `mockTxn.Commit`: each queued op — whatever its kind — is
executed as `m.Put(op.KeyBytes(), op.ValueBytes())`; a put error would be
returned at once, leaving earlier puts applied. -/
def commitAux : List Op → MetaMock → MetaMock × Option GoError
  | [], m => (m, none)
  | op :: rest, m =>
    match metaPut m op.key op.value with
    | (m₁, none) => commitAux rest m₁
    | (m₁, some e) => (m₁, some e)

/-- `mockTxn.Commit` over the queued op list. -/
def mockCommit (m : MetaMock) (ops : List Op) : MetaMock × Option GoError :=
  commitAux ops m

/-- Modelled from the spec: the metastore contract applies a put as a put
and a delete as a delete; used as the reference point for `mockCommit`. -/
def specApplyOp (m : MetaMock) (op : Op) : MetaMock :=
  match op.kind with
  | OpKind.putOp => (metaPut m op.key op.value).1
  | OpKind.deleteOp => (metaDelete m op.key).1

theorem mem_mapKeys_of_assocGet {α : Type} {l : List (String × α)} {k : String} {v : α}
    (h : assocGet l k = some v) : k ∈ mapKeys l := by
  by_contra hn
  rw [← assocGet_eq_none] at hn
  rw [h] at hn
  exact Option.noConfusion hn

/-- Concrete job metas used by witnesses and counterexamples. -/
def metaA : MasterMeta := ⟨"a", 1, "node-1", 1, "addr-1", true, "cfg-a", 0⟩

def metaB : MasterMeta := ⟨"b", 2, "node-2", 1, "addr-2", true, "cfg-b", 0⟩

def metaP : MasterMeta := ⟨"p", 3, "node-3", 1, "addr-3", true, "cfg-p", 0⟩

def metaW : MasterMeta := ⟨"w", 4, "node-4", 1, "addr-4", true, "cfg-w", 0⟩

def metaO : MasterMeta := ⟨"o", 5, "node-5", 1, "addr-5", true, "cfg-o", 0⟩

/-- A worker handle whose id is `"a"`. -/
def wA : WorkerHandle := ⟨"a"⟩

/-- C9: `JobCount` returns `0` for every status other than pending,
dispatched and online; being a total function of the embedded state it
can neither error nor panic. -/
theorem JobCount_default_zero (fsm : JobFsm) (s : JobStatus)
    (h₁ : s ≠ JobStatus.pending) (h₂ : s ≠ JobStatus.dispatched)
    (h₃ : s ≠ JobStatus.online) : JobCount fsm s = 0 := by
  cases s
  · exact absurd rfl h₁
  · exact absurd rfl h₂
  · exact absurd rfl h₃
  · rfl

theorem JobCount_default_zero_witness :
    JobCount ⟨[("a", metaA)], [], []⟩ JobStatus.finished = 0 :=
  JobCount_default_zero ⟨[("a", metaA)], [], []⟩ JobStatus.finished
    (by decide) (by decide) (by decide)

/-- C2: `JobOnline` with an id absent from `waitAckJobs` returns
`ErrWorkerNotFound` and leaves the state untouched; with an id present it
succeeds, removes the `waitAckJobs` entry and stores the same meta with
the given worker handle in `onlineJobs` under the same id, touching no
other entry. -/
theorem JobOnline_spec (fsm : JobFsm) (w : WorkerHandle) :
    (assocGet fsm.waitAckJobs w.workerID = none →
      JobOnline fsm w = (fsm, some (GoError.workerNotFound w.workerID))) ∧
    (∀ job, assocGet fsm.waitAckJobs w.workerID = some job →
      (JobOnline fsm w).2 = none ∧
      assocGet (JobOnline fsm w).1.waitAckJobs w.workerID = none ∧
      assocGet (JobOnline fsm w).1.onlineJobs w.workerID = some ⟨some w, job.meta, false⟩ ∧
      (JobOnline fsm w).1.pendingJobs = fsm.pendingJobs ∧
      (∀ k, k ≠ w.workerID →
        assocGet (JobOnline fsm w).1.waitAckJobs k = assocGet fsm.waitAckJobs k ∧
        assocGet (JobOnline fsm w).1.onlineJobs k = assocGet fsm.onlineJobs k)) := by
  constructor
  · intro h
    simp [JobOnline, h]
  · intro job h
    refine ⟨?_, ?_, ?_, ?_, ?_⟩
    · simp [JobOnline, h]
    · simp [JobOnline, h, assocGet_del_self]
    · simp [JobOnline, h, assocGet_put_self]
    · simp [JobOnline, h]
    · intro k hk
      constructor
      · simp only [JobOnline, h]
        exact assocGet_del_ne hk
      · simp only [JobOnline, h]
        exact assocGet_put_ne hk

theorem JobOnline_spec_witness :
    JobOnline ⟨[], [("a", ⟨none, metaA, true⟩)], []⟩ ⟨"b"⟩ =
      (⟨[], [("a", ⟨none, metaA, true⟩)], []⟩, some (GoError.workerNotFound "b")) ∧
    ((JobOnline ⟨[], [("a", ⟨none, metaA, true⟩)], []⟩ wA).2 = none ∧
      assocGet (JobOnline ⟨[], [("a", ⟨none, metaA, true⟩)], []⟩ wA).1.onlineJobs "a" =
        some ⟨some wA, metaA, false⟩) :=
  ⟨(JobOnline_spec ⟨[], [("a", ⟨none, metaA, true⟩)], []⟩ ⟨"b"⟩).1 (by decide),
    ((JobOnline_spec ⟨[], [("a", ⟨none, metaA, true⟩)], []⟩ wA).2
        ⟨none, metaA, true⟩ (by decide)).1,
    ((JobOnline_spec ⟨[], [("a", ⟨none, metaA, true⟩)], []⟩ wA).2
        ⟨none, metaA, true⟩ (by decide)).2.2.1⟩

/-- C6: contrary to the claim, a container whose `Poll` returns `Ready`
is not dropped by the `Run` loop of `runtime.go`: the loop only special-
cases `Blocked`, so the completed container is set runnable and pushed
back onto the queue, to be polled again forever. -/
theorem runStep_ready_requeued :
    runStep (fun _ => PollResult.ready) [⟨0, TaskStatus.runnable, false⟩] =
      ([⟨0, TaskStatus.runnable, false⟩], none) ∧
    (⟨0, TaskStatus.runnable, false⟩ : taskContainer) ∈
      (runStep (fun _ => PollResult.ready) [⟨0, TaskStatus.runnable, false⟩]).1 := by
  decide

/-- C7: in a `Run` iteration whose poll returns `Blocked`, the container
is parked exactly when `tryBlock` claims the blocked slot (no wake-up
arrived since `Poll` started); when a concurrent wake makes `tryBlock`
fail, the container is set runnable and pushed back onto the queue tail,
so the woken task is again in the queue. -/
theorem runStep_no_lost_wake (pollFn : taskContainer → PollResult)
    (t : taskContainer) (rest : List taskContainer)
    (hpoll : pollFn t = PollResult.blocked) :
    ((tryBlock t).1 = true →
      runStep pollFn (t :: rest) = (rest, some (tryBlock t).2) ∧
      (tryBlock t).2.status = TaskStatus.blocked ∧
      t.wakeReceived = false) ∧
    ((tryBlock t).1 = false →
      t.wakeReceived = true ∧
      runStep pollFn (t :: rest) = (rest ++ [setRunnable t], none) ∧
      setRunnable t ∈ (runStep pollFn (t :: rest)).1 ∧
      (setRunnable t).status = TaskStatus.runnable) := by
  by_cases hw : t.wakeReceived
  · constructor
    · intro hb
      rw [tryBlock, if_pos hw] at hb
      exact Bool.noConfusion hb
    · intro _
      refine ⟨hw, ?_, ?_, rfl⟩
      · simp [runStep, hpoll, tryBlock, hw]
      · simp [runStep, hpoll, tryBlock, hw]
  · constructor
    · intro _
      refine ⟨?_, ?_, by simpa using hw⟩
      · simp [runStep, hpoll, tryBlock, hw]
      · simp [tryBlock, hw]
    · intro hb
      rw [tryBlock, if_neg hw] at hb
      exact Bool.noConfusion hb

theorem runStep_no_lost_wake_witness :
    (runStep (fun _ => PollResult.blocked) [⟨1, TaskStatus.runnable, false⟩] =
      ([], some ⟨1, TaskStatus.blocked, false⟩) ∧
      (⟨1, TaskStatus.runnable, false⟩ : taskContainer).wakeReceived = false) ∧
    (runStep (fun _ => PollResult.blocked) [⟨2, TaskStatus.runnable, true⟩] =
      ([setRunnable ⟨2, TaskStatus.runnable, true⟩], none) ∧
      setRunnable ⟨2, TaskStatus.runnable, true⟩ ∈
        (runStep (fun _ => PollResult.blocked) [⟨2, TaskStatus.runnable, true⟩]).1) :=
  ⟨⟨((runStep_no_lost_wake (fun _ => PollResult.blocked)
        ⟨1, TaskStatus.runnable, false⟩ [] rfl).1 (by decide)).1,
    ((runStep_no_lost_wake (fun _ => PollResult.blocked)
        ⟨1, TaskStatus.runnable, false⟩ [] rfl).1 (by decide)).2.2⟩,
    ⟨((runStep_no_lost_wake (fun _ => PollResult.blocked)
        ⟨2, TaskStatus.runnable, true⟩ [] rfl).2 (by decide)).2.1,
      ((runStep_no_lost_wake (fun _ => PollResult.blocked)
        ⟨2, TaskStatus.runnable, true⟩ [] rfl).2 (by decide)).2.2.1⟩⟩

/-- C8: contrary to the claim, `mockTxn.Commit` executes every queued
operation as a `Put`: committing a transaction holding a single delete of
the existing key `"k"` succeeds yet leaves `"k"` in the store (with the
delete op's empty value bytes), whereas the spec's delete removes it. -/
theorem mockCommit_delete_as_put :
    (mockCommit ⟨[("k", "v")], 0⟩ [⟨OpKind.deleteOp, "k", ""⟩]).2 = none ∧
    assocGet (mockCommit ⟨[("k", "v")], 0⟩ [⟨OpKind.deleteOp, "k", ""⟩]).1.store "k" =
      some "" ∧
    assocGet (specApplyOp ⟨[("k", "v")], 0⟩ ⟨OpKind.deleteOp, "k", ""⟩).store "k" = none := by
  decide

/-- C1 counterexample: dispatching a job, bringing it online and then
dispatching the same id again is a sequence of FSM operations from the
empty state that leaves the id in `waitAckJobs` and `onlineJobs` at once,
so disjointness is not preserved by every FSM operation. -/
theorem jobFsm_disjointness_cex :
    "a" ∈ mapKeys (JobDispatched (JobOnline (JobDispatched NewJobFsm metaA false) wA).1
        metaA false).waitAckJobs ∧
    "a" ∈ mapKeys (JobDispatched (JobOnline (JobDispatched NewJobFsm metaA false) wA).1
        metaA false).onlineJobs ∧
    ¬DisjointFsm (JobDispatched (JobOnline (JobDispatched NewJobFsm metaA false) wA).1
        metaA false) := by
  decide

/-- C3 counterexample: in the state with `"a"` both pending and online,
`JobOffline` with `needFailover = false` deletes only the online entry,
so the id is still in `pendingJobs` afterwards — the claim's "ends up in
none of the three maps" fails without a disjointness precondition. -/
theorem JobOffline_nonfailover_cex :
    "a" ∈ mapKeys (JobOffline ⟨[("a", metaA)], [], [("a", ⟨some wA, metaA, false⟩)]⟩
        wA false).pendingJobs ∧
    assocGet (JobOffline ⟨[("a", metaA)], [], [("a", ⟨some wA, metaA, false⟩)]⟩
        wA false).onlineJobs "a" = none := by
  decide

/-- C5 counterexample: with one `waitAckJobs` entry carrying
`addFromFailover = true` and a dispatch function that fails,
`IterWaitAckJobs` invokes the function, returns its error, and leaves the
flag still `true`; a second call invokes the function for the same entry
again (observable through the repeated error). -/
theorem iterWaitAck_error_keeps_flag_cex :
    IterWaitAckJobs ⟨[], [("a", ⟨none, metaA, true⟩)], []⟩
        (fun _ => Except.error GoError.clusterResourceNotEnough) =
      (⟨[], [("a", ⟨none, metaA, true⟩)], []⟩, some GoError.clusterResourceNotEnough) ∧
    assocGet (IterWaitAckJobs ⟨[], [("a", ⟨none, metaA, true⟩)], []⟩
        (fun _ => Except.error GoError.clusterResourceNotEnough)).1.waitAckJobs "a" =
      some ⟨none, metaA, true⟩ ∧
    IterWaitAckJobs (IterWaitAckJobs ⟨[], [("a", ⟨none, metaA, true⟩)], []⟩
        (fun _ => Except.error GoError.clusterResourceNotEnough)).1
        (fun _ => Except.error GoError.clusterResourceNotEnough) =
      (⟨[], [("a", ⟨none, metaA, true⟩)], []⟩, some GoError.clusterResourceNotEnough) := by
  decide

/-- C5 (amended): for a visited `waitAckJobs` entry with
`addFromFailover = true`, the flag is set to `false` exactly when
`dispatchJobFn` returns without error; on error the loop body returns the
error with the state (flag included) untouched, so a later call retries
the entry; an entry whose flag is `false` never has `dispatchJobFn`
invoked (the body ignores the dispatch function entirely). -/
theorem iterWaitAckStep_flag_semantics (df : DispatchFn) (fsm : JobFsm)
    (jid : MasterID) (h : jobHolder) (hflag : h.addFromFailover = true) :
    (∀ i, df h.meta = Except.ok i →
      (iterWaitAckStep df fsm (jid, h)).2 = none ∧
      assocGet (iterWaitAckStep df fsm (jid, h)).1.waitAckJobs jid =
        some { h with addFromFailover := false }) ∧
    (∀ e, df h.meta = Except.error e →
      iterWaitAckStep df fsm (jid, h) = (fsm, some e)) ∧
    (∀ df₂ : DispatchFn, ∀ h₂ : jobHolder, h₂.addFromFailover = false →
      iterWaitAckStep df₂ fsm (jid, h₂) = (fsm, none)) := by
  refine ⟨?_, ?_, ?_⟩
  · intro i hi
    constructor
    · simp [iterWaitAckStep, hflag, hi]
    · simp [iterWaitAckStep, hflag, hi, assocGet_put_self]
  · intro e he
    simp [iterWaitAckStep, hflag, he]
  · intro df₂ h₂ hf
    simp [iterWaitAckStep, hf]

theorem iterWaitAckStep_flag_semantics_witness :
    ((iterWaitAckStep (fun _ => Except.ok "n1") NewJobFsm ("a", ⟨none, metaA, true⟩)).2 =
        none ∧
      assocGet (iterWaitAckStep (fun _ => Except.ok "n1") NewJobFsm
          ("a", ⟨none, metaA, true⟩)).1.waitAckJobs "a" = some ⟨none, metaA, false⟩) ∧
    iterWaitAckStep (fun _ => Except.error GoError.clusterResourceNotEnough) NewJobFsm
        ("a", ⟨none, metaA, true⟩) =
      (NewJobFsm, some GoError.clusterResourceNotEnough) ∧
    iterWaitAckStep (fun _ => Except.ok "n1") NewJobFsm ("a", ⟨none, metaA, false⟩) =
      (NewJobFsm, none) :=
  ⟨(iterWaitAckStep_flag_semantics (fun _ => Except.ok "n1") NewJobFsm "a"
        ⟨none, metaA, true⟩ rfl).1 "n1" rfl,
    (iterWaitAckStep_flag_semantics (fun _ => Except.error GoError.clusterResourceNotEnough)
        NewJobFsm "a" ⟨none, metaA, true⟩ rfl).2.1 GoError.clusterResourceNotEnough rfl,
    (iterWaitAckStep_flag_semantics (fun _ => Except.error GoError.clusterResourceNotEnough)
        NewJobFsm "a" ⟨none, metaA, true⟩ rfl).2.2 (fun _ => Except.ok "n1")
        ⟨none, metaA, false⟩ rfl⟩

/-- C3 (amended): for every state in which the worker's id is in at most
one of the three maps, `JobOffline` removes the id's entry from
`onlineJobs` — or, if absent there, from `waitAckJobs`; with
`needFailover = true` the entry's meta is put into `pendingJobs` under the
same id (other pending entries untouched); with `needFailover = false`
the id ends up in none of the three maps; an id present in none of the
maps leaves the state unchanged. -/
theorem JobOffline_spec_amended (fsm : JobFsm) (w : WorkerHandle) (b : Bool)
    (hone : AtMostOneMap fsm w.workerID) :
    (∀ job, assocGet fsm.onlineJobs w.workerID = some job →
      w.workerID ∉ mapKeys (JobOffline fsm w b).onlineJobs ∧
      (JobOffline fsm w b).waitAckJobs = fsm.waitAckJobs ∧
      (b = true →
        assocGet (JobOffline fsm w b).pendingJobs w.workerID = some job.meta ∧
        ∀ k, k ≠ w.workerID →
          assocGet (JobOffline fsm w b).pendingJobs k = assocGet fsm.pendingJobs k) ∧
      (b = false →
        (JobOffline fsm w b).pendingJobs = fsm.pendingJobs ∧
        w.workerID ∉ mapKeys (JobOffline fsm w b).pendingJobs ∧
        w.workerID ∉ mapKeys (JobOffline fsm w b).waitAckJobs)) ∧
    (assocGet fsm.onlineJobs w.workerID = none →
      ∀ job, assocGet fsm.waitAckJobs w.workerID = some job →
      w.workerID ∉ mapKeys (JobOffline fsm w b).waitAckJobs ∧
      (JobOffline fsm w b).onlineJobs = fsm.onlineJobs ∧
      (b = true →
        assocGet (JobOffline fsm w b).pendingJobs w.workerID = some job.meta ∧
        ∀ k, k ≠ w.workerID →
          assocGet (JobOffline fsm w b).pendingJobs k = assocGet fsm.pendingJobs k) ∧
      (b = false →
        (JobOffline fsm w b).pendingJobs = fsm.pendingJobs ∧
        w.workerID ∉ mapKeys (JobOffline fsm w b).pendingJobs ∧
        w.workerID ∉ mapKeys (JobOffline fsm w b).onlineJobs)) ∧
    (w.workerID ∉ mapKeys fsm.pendingJobs →
      w.workerID ∉ mapKeys fsm.waitAckJobs →
      w.workerID ∉ mapKeys fsm.onlineJobs →
      JobOffline fsm w b = fsm) := by
  obtain ⟨hpw, hpo, hwo⟩ := hone
  refine ⟨?_, ?_, ?_⟩
  · intro job hget
    have hmemo : w.workerID ∈ mapKeys fsm.onlineJobs := mem_mapKeys_of_assocGet hget
    have hnp : w.workerID ∉ mapKeys fsm.pendingJobs := fun hp => hpo ⟨hp, hmemo⟩
    have hnw : w.workerID ∉ mapKeys fsm.waitAckJobs := fun hw => hwo ⟨hw, hmemo⟩
    cases b with
    | true =>
      refine ⟨?_, ?_, ?_, ?_⟩
      · simp only [JobOffline, hget]
        intro hmem
        exact (mem_mapKeys_del.mp hmem).2 rfl
      · simp [JobOffline, hget]
      · intro _
        constructor
        · simp [JobOffline, hget, assocGet_put_self]
        · intro k hk
          simp only [JobOffline, hget]
          exact assocGet_put_ne hk
      · intro hb
        exact Bool.noConfusion hb
    | false =>
      refine ⟨?_, ?_, ?_, ?_⟩
      · simp only [JobOffline, hget]
        intro hmem
        exact (mem_mapKeys_del.mp hmem).2 rfl
      · simp [JobOffline, hget]
      · intro hb
        exact Bool.noConfusion hb
      · intro _
        exact ⟨by simp [JobOffline, hget], by simp [JobOffline, hget]; exact hnp,
          by simp [JobOffline, hget]; exact hnw⟩
  · intro hno job hget
    have hmemw : w.workerID ∈ mapKeys fsm.waitAckJobs := mem_mapKeys_of_assocGet hget
    have hnp : w.workerID ∉ mapKeys fsm.pendingJobs := fun hp => hpw ⟨hp, hmemw⟩
    have hnon : w.workerID ∉ mapKeys fsm.onlineJobs := fun ho => hwo ⟨hmemw, ho⟩
    cases b with
    | true =>
      refine ⟨?_, ?_, ?_, ?_⟩
      · simp only [JobOffline, hno, hget]
        intro hmem
        exact (mem_mapKeys_del.mp hmem).2 rfl
      · simp [JobOffline, hno, hget]
      · intro _
        constructor
        · simp [JobOffline, hno, hget, assocGet_put_self]
        · intro k hk
          simp only [JobOffline, hno, hget]
          exact assocGet_put_ne hk
      · intro hb
        exact Bool.noConfusion hb
    | false =>
      refine ⟨?_, ?_, ?_, ?_⟩
      · simp only [JobOffline, hno, hget]
        intro hmem
        exact (mem_mapKeys_del.mp hmem).2 rfl
      · simp [JobOffline, hno, hget]
      · intro hb
        exact Bool.noConfusion hb
      · intro _
        exact ⟨by simp [JobOffline, hno, hget], by simp [JobOffline, hno, hget]; exact hnp,
          by simp [JobOffline, hno, hget]; exact hnon⟩
  · intro hnp hnw hno
    have h₁ : assocGet fsm.onlineJobs w.workerID = none := assocGet_eq_none.mpr hno
    have h₂ : assocGet fsm.waitAckJobs w.workerID = none := assocGet_eq_none.mpr hnw
    simp [JobOffline, h₁, h₂]

theorem JobOffline_spec_amended_witness :
    ("a" ∉ mapKeys (JobOffline ⟨[], [], [("a", ⟨some wA, metaA, false⟩)]⟩ wA
        true).onlineJobs ∧
      assocGet (JobOffline ⟨[], [], [("a", ⟨some wA, metaA, false⟩)]⟩ wA
          true).pendingJobs "a" = some metaA) ∧
    ("a" ∉ mapKeys (JobOffline ⟨[], [], [("a", ⟨some wA, metaA, false⟩)]⟩ wA
        false).pendingJobs ∧
      "a" ∉ mapKeys (JobOffline ⟨[], [], [("a", ⟨some wA, metaA, false⟩)]⟩ wA
        false).onlineJobs) ∧
    ("a" ∉ mapKeys (JobOffline ⟨[], [("a", ⟨none, metaA, true⟩)], []⟩ wA
        true).waitAckJobs ∧
      assocGet (JobOffline ⟨[], [("a", ⟨none, metaA, true⟩)], []⟩ wA
          true).pendingJobs "a" = some metaA) ∧
    JobOffline ⟨[("p", metaP)], [], []⟩ wA false = ⟨[("p", metaP)], [], []⟩ :=
  ⟨⟨((JobOffline_spec_amended ⟨[], [], [("a", ⟨some wA, metaA, false⟩)]⟩ wA true
        (by decide)).1 ⟨some wA, metaA, false⟩ (by decide)).1,
    (((JobOffline_spec_amended ⟨[], [], [("a", ⟨some wA, metaA, false⟩)]⟩ wA true
        (by decide)).1 ⟨some wA, metaA, false⟩ (by decide)).2.2.1 rfl).1⟩,
    ⟨(((JobOffline_spec_amended ⟨[], [], [("a", ⟨some wA, metaA, false⟩)]⟩ wA false
        (by decide)).1 ⟨some wA, metaA, false⟩ (by decide)).2.2.2 rfl).2.1,
      ((JobOffline_spec_amended ⟨[], [], [("a", ⟨some wA, metaA, false⟩)]⟩ wA false
        (by decide)).1 ⟨some wA, metaA, false⟩ (by decide)).1⟩,
    ⟨((JobOffline_spec_amended ⟨[], [("a", ⟨none, metaA, true⟩)], []⟩ wA true
        (by decide)).2.1 (by decide) ⟨none, metaA, true⟩ (by decide)).1,
      (((JobOffline_spec_amended ⟨[], [("a", ⟨none, metaA, true⟩)], []⟩ wA true
        (by decide)).2.1 (by decide) ⟨none, metaA, true⟩ (by decide)).2.2.1 rfl).1⟩,
    (JobOffline_spec_amended ⟨[("p", metaP)], [], []⟩ wA false
        (by decide)).2.2 (by decide) (by decide) (by decide)⟩

/-- C4: for every pending entry visited by `IterPendingJobs` (the loop
body is `iterPendingStep`, applied to each visited entry in turn): when
`dispatchJobFn` returns a new id without error, the entry is removed from
`pendingJobs` and stored in `waitAckJobs` under the new id with the
meta's `ID` field updated to it (online jobs untouched); when it returns
an error, the body returns the error with the state unchanged, so the job
stays in `pendingJobs`. -/
theorem iterPendingStep_spec (df : DispatchFn) (fsm : JobFsm)
    (oldId : MasterID) (job : MasterMeta) :
    (∀ i, df job = Except.ok i →
      (iterPendingStep df fsm (oldId, job)).2 = none ∧
      assocGet (iterPendingStep df fsm (oldId, job)).1.pendingJobs oldId = none ∧
      assocGet (iterPendingStep df fsm (oldId, job)).1.waitAckJobs i =
        some ⟨none, { job with id := i }, false⟩ ∧
      (iterPendingStep df fsm (oldId, job)).1.onlineJobs = fsm.onlineJobs) ∧
    (∀ e, df job = Except.error e →
      iterPendingStep df fsm (oldId, job) = (fsm, some e) ∧
      assocGet (iterPendingStep df fsm (oldId, job)).1.pendingJobs oldId =
        assocGet fsm.pendingJobs oldId) := by
  constructor
  · intro i hi
    refine ⟨?_, ?_, ?_, ?_⟩
    · simp [iterPendingStep, hi]
    · simp [iterPendingStep, hi, assocGet_del_self]
    · simp [iterPendingStep, hi, assocGet_put_self]
    · simp [iterPendingStep, hi]
  · intro e he
    constructor
    · simp [iterPendingStep, he]
    · simp [iterPendingStep, he]

theorem iterPendingStep_spec_witness :
    ((iterPendingStep (fun _ => Except.ok "n1") ⟨[("a", metaA)], [], []⟩
        ("a", metaA)).2 = none ∧
      assocGet (iterPendingStep (fun _ => Except.ok "n1") ⟨[("a", metaA)], [], []⟩
          ("a", metaA)).1.pendingJobs "a" = none ∧
      assocGet (iterPendingStep (fun _ => Except.ok "n1") ⟨[("a", metaA)], [], []⟩
          ("a", metaA)).1.waitAckJobs "n1" = some ⟨none, { metaA with id := "n1" }, false⟩) ∧
    iterPendingStep (fun _ => Except.error GoError.clusterResourceNotEnough)
        ⟨[("a", metaA)], [], []⟩ ("a", metaA) =
      (⟨[("a", metaA)], [], []⟩, some GoError.clusterResourceNotEnough) :=
  ⟨⟨((iterPendingStep_spec (fun _ => Except.ok "n1") ⟨[("a", metaA)], [], []⟩
        "a" metaA).1 "n1" rfl).1,
    ((iterPendingStep_spec (fun _ => Except.ok "n1") ⟨[("a", metaA)], [], []⟩
        "a" metaA).1 "n1" rfl).2.1,
    ((iterPendingStep_spec (fun _ => Except.ok "n1") ⟨[("a", metaA)], [], []⟩
        "a" metaA).1 "n1" rfl).2.2.1⟩,
    ((iterPendingStep_spec (fun _ => Except.error GoError.clusterResourceNotEnough)
        ⟨[("a", metaA)], [], []⟩ "a" metaA).2 GoError.clusterResourceNotEnough rfl).1⟩

theorem disjoint_put_waitAck {fsm : JobFsm} (hD : DisjointFsm fsm) {k : MasterID}
    {h : jobHolder} (hp : k ∉ mapKeys fsm.pendingJobs)
    (ho : k ∉ mapKeys fsm.onlineJobs) :
    DisjointFsm { fsm with waitAckJobs := assocPut fsm.waitAckJobs k h } := by
  obtain ⟨h₁, h₂, h₃⟩ := hD
  refine ⟨?_, h₂, ?_⟩
  · intro k₁ hk₁ hmem
    rcases mem_mapKeys_put.mp hmem with rfl | hm
    · exact hp hk₁
    · exact h₁ k₁ hk₁ hm
  · intro k₁ hk₁
    rcases mem_mapKeys_put.mp hk₁ with rfl | hm
    · exact ho
    · exact h₃ k₁ hm

theorem disjoint_del_pending {fsm : JobFsm} (hD : DisjointFsm fsm) {k : MasterID} :
    DisjointFsm { fsm with pendingJobs := assocDel fsm.pendingJobs k } := by
  obtain ⟨h₁, h₂, h₃⟩ := hD
  exact ⟨fun k₁ hk₁ => h₁ k₁ (mem_mapKeys_del.mp hk₁).1,
    fun k₁ hk₁ => h₂ k₁ (mem_mapKeys_del.mp hk₁).1, h₃⟩

theorem JobDispatched_disjoint (fsm : JobFsm) (job : MasterMeta) (b : Bool)
    (hD : DisjointFsm fsm) (hp : job.id ∉ mapKeys fsm.pendingJobs)
    (ho : job.id ∉ mapKeys fsm.onlineJobs) :
    DisjointFsm (JobDispatched fsm job b) :=
  disjoint_put_waitAck hD hp ho

theorem JobOnline_disjoint (fsm : JobFsm) (w : WorkerHandle) (hD : DisjointFsm fsm) :
    DisjointFsm (JobOnline fsm w).1 := by
  obtain ⟨h₁, h₂, h₃⟩ := hD
  cases hget : assocGet fsm.waitAckJobs w.workerID with
  | none =>
    simp only [JobOnline, hget]
    exact ⟨h₁, h₂, h₃⟩
  | some job =>
    have hmw : w.workerID ∈ mapKeys fsm.waitAckJobs := mem_mapKeys_of_assocGet hget
    simp only [JobOnline, hget]
    refine ⟨?_, ?_, ?_⟩
    · intro k hk hmem
      exact h₁ k hk (mem_mapKeys_del.mp hmem).1
    · intro k hk hmem
      rcases mem_mapKeys_put.mp hmem with rfl | hm
      · exact h₁ _ hk hmw
      · exact h₂ k hk hm
    · intro k hk hmem
      obtain ⟨hkw, hkne⟩ := mem_mapKeys_del.mp hk
      rcases mem_mapKeys_put.mp hmem with rfl | hm
      · exact hkne rfl
      · exact h₃ k hkw hm

theorem JobOffline_disjoint (fsm : JobFsm) (w : WorkerHandle) (b : Bool)
    (hD : DisjointFsm fsm) : DisjointFsm (JobOffline fsm w b) := by
  obtain ⟨h₁, h₂, h₃⟩ := hD
  cases hget : assocGet fsm.onlineJobs w.workerID with
  | some job =>
    have hmo : w.workerID ∈ mapKeys fsm.onlineJobs := mem_mapKeys_of_assocGet hget
    cases b with
    | false =>
      simp only [JobOffline, hget, if_neg Bool.false_ne_true]
      exact ⟨h₁, fun k hk hmem => h₂ k hk (mem_mapKeys_del.mp hmem).1,
        fun k hk hmem => h₃ k hk (mem_mapKeys_del.mp hmem).1⟩
    | true =>
      simp only [JobOffline, hget, if_pos rfl]
      refine ⟨?_, ?_, ?_⟩
      · intro k hk hmem
        rcases mem_mapKeys_put.mp hk with rfl | hm
        · exact h₃ _ hmem hmo
        · exact h₁ _ hm hmem
      · intro k hk hmem
        obtain ⟨hko, hkne⟩ := mem_mapKeys_del.mp hmem
        rcases mem_mapKeys_put.mp hk with rfl | hm
        · exact hkne rfl
        · exact h₂ k hm hko
      · intro k hk hmem
        exact h₃ k hk (mem_mapKeys_del.mp hmem).1
  | none =>
    cases hget₂ : assocGet fsm.waitAckJobs w.workerID with
    | none =>
      simp only [JobOffline, hget, hget₂]
      exact ⟨h₁, h₂, h₃⟩
    | some job =>
      have hmw : w.workerID ∈ mapKeys fsm.waitAckJobs := mem_mapKeys_of_assocGet hget₂
      cases b with
      | false =>
        simp only [JobOffline, hget, hget₂, if_neg Bool.false_ne_true]
        exact ⟨fun k hk hmem => h₁ k hk (mem_mapKeys_del.mp hmem).1, h₂,
          fun k hk => h₃ k (mem_mapKeys_del.mp hk).1⟩
      | true =>
        simp only [JobOffline, hget, hget₂, if_pos rfl]
        refine ⟨?_, ?_, ?_⟩
        · intro k hk hmem
          obtain ⟨hkw, hkne⟩ := mem_mapKeys_del.mp hmem
          rcases mem_mapKeys_put.mp hk with rfl | hm
          · exact hkne rfl
          · exact h₁ k hm hkw
        · intro k hk hmem
          rcases mem_mapKeys_put.mp hk with rfl | hm
          · exact h₃ _ hmw hmem
          · exact h₂ _ hm hmem
        · intro k hk
          exact h₃ k (mem_mapKeys_del.mp hk).1
  
theorem JobDispatchFailed_disjoint (fsm : JobFsm) (w : WorkerHandle)
    (hD : DisjointFsm fsm) : DisjointFsm (JobDispatchFailed fsm w).1 := by
  obtain ⟨h₁, h₂, h₃⟩ := hD
  cases hget : assocGet fsm.waitAckJobs w.workerID with
  | none =>
    simp only [JobDispatchFailed, hget]
    exact ⟨h₁, h₂, h₃⟩
  | some job =>
    have hmw : w.workerID ∈ mapKeys fsm.waitAckJobs := mem_mapKeys_of_assocGet hget
    simp only [JobDispatchFailed, hget]
    refine ⟨?_, ?_, ?_⟩
    · intro k hk hmem
      obtain ⟨hkw, hkne⟩ := mem_mapKeys_del.mp hmem
      rcases mem_mapKeys_put.mp hk with rfl | hm
      · exact hkne rfl
      · exact h₁ k hm hkw
    · intro k hk hmem
      rcases mem_mapKeys_put.mp hk with rfl | hm
      · exact h₃ _ hmw hmem
      · exact h₂ _ hm hmem
    · intro k hk
      exact h₃ k (mem_mapKeys_del.mp hk).1

theorem iterWaitAckAux_disjoint (df : DispatchFn) (l : List (MasterID × jobHolder)) :
    ∀ cur : JobFsm, DisjointFsm cur →
      (∀ p ∈ l, p.1 ∉ mapKeys cur.pendingJobs ∧ p.1 ∉ mapKeys cur.onlineJobs) →
      DisjointFsm (iterWaitAckAux df l cur).1 := by
  induction l with
  | nil =>
    intro cur hD _
    exact hD
  | cons e rest ih =>
    intro cur hD hl
    by_cases hf : e.2.addFromFailover = false
    · have hstep : iterWaitAckStep df cur e = (cur, none) := by
        simp [iterWaitAckStep, hf]
      simp only [iterWaitAckAux, hstep]
      exact ih cur hD (fun p hp => hl p (List.mem_cons_of_mem e hp))
    · cases hd : df e.2.meta with
      | error err =>
        have hstep : iterWaitAckStep df cur e = (cur, some err) := by
          simp [iterWaitAckStep, hf, hd]
        simp only [iterWaitAckAux, hstep]
        exact hD
      | ok i =>
        have hstep : iterWaitAckStep df cur e =
            ({ cur with waitAckJobs :=
                assocPut cur.waitAckJobs e.1 { e.2 with addFromFailover := false } }, none) := by
          simp [iterWaitAckStep, hf, hd]
        simp only [iterWaitAckAux, hstep]
        refine ih _ ?_ ?_
        · exact disjoint_put_waitAck hD (hl e (List.mem_cons_self e rest)).1
            (hl e (List.mem_cons_self e rest)).2
        · intro p hp
          exact hl p (List.mem_cons_of_mem e hp)

theorem IterWaitAckJobs_disjoint (fsm : JobFsm) (df : DispatchFn)
    (hD : DisjointFsm fsm) : DisjointFsm (IterWaitAckJobs fsm df).1 := by
  refine iterWaitAckAux_disjoint df fsm.waitAckJobs fsm hD ?_
  intro p hp
  have hmem : p.1 ∈ mapKeys fsm.waitAckJobs := mem_mapKeys.mpr ⟨p.2, by simpa using hp⟩
  exact ⟨fun hp₁ => hD.1 p.1 hp₁ hmem, hD.2.2 p.1 hmem⟩

theorem iterPendingAux_disjoint (df : DispatchFn) (l : List (MasterID × MasterMeta)) :
    ∀ cur : JobFsm, DisjointFsm cur →
      (∀ p ∈ l, ∀ i, df p.2 = Except.ok i →
        i ∉ mapKeys cur.pendingJobs ∧ i ∉ mapKeys cur.onlineJobs) →
      DisjointFsm (iterPendingAux df l cur).1 := by
  induction l with
  | nil =>
    intro cur hD _
    exact hD
  | cons e rest ih =>
    intro cur hD hl
    cases hd : df e.2 with
    | error err =>
      have hstep : iterPendingStep df cur e = (cur, some err) := by
        simp [iterPendingStep, hd]
      simp only [iterPendingAux, hstep]
      exact hD
    | ok i =>
      have hstep : iterPendingStep df cur e =
          ({ cur with
              pendingJobs := assocDel cur.pendingJobs e.1
              waitAckJobs :=
                assocPut cur.waitAckJobs i ⟨none, { e.2 with id := i }, false⟩ }, none) := by
        simp [iterPendingStep, hd]
      simp only [iterPendingAux, hstep]
      refine ih _ ?_ ?_
      · have hfresh := hl e (List.mem_cons_self e rest) i hd
        have hbase : DisjointFsm { cur with pendingJobs := assocDel cur.pendingJobs e.1 } :=
          disjoint_del_pending hD
        refine disjoint_put_waitAck hbase ?_ hfresh.2
        intro hmem
        exact hfresh.1 (mem_mapKeys_del.mp hmem).1
      · intro p hp i₁ hi₁
        have hfresh := hl p (List.mem_cons_of_mem e hp) i₁ hi₁
        refine ⟨?_, hfresh.2⟩
        intro hmem
        exact hfresh.1 (mem_mapKeys_del.mp hmem).1

theorem IterPendingJobs_disjoint (fsm : JobFsm) (df : DispatchFn) (hD : DisjointFsm fsm)
    (hfresh : ∀ p ∈ fsm.pendingJobs, ∀ i, df p.2 = Except.ok i →
      i ∉ mapKeys fsm.pendingJobs ∧ i ∉ mapKeys fsm.onlineJobs) :
    DisjointFsm (IterPendingJobs fsm df).1 :=
  iterPendingAux_disjoint df fsm.pendingJobs fsm hD hfresh

/-- C1 (amended): starting from a state in which every master id appears
in at most one of the three maps, disjointness is preserved by
`JobOnline`, `JobOffline`, `JobDispatchFailed` and `IterWaitAckJobs`
unconditionally; `JobDispatched` preserves it provided the dispatched
job's id is not already a pending or online key, and `IterPendingJobs`
preserves it provided every id returned by `dispatchJobFn` is not a
pending or online key.  (Without these freshness conditions the claim
fails, see the counterexample.) -/
theorem jobFsm_disjointness_amended (fsm : JobFsm) (hD : DisjointFsm fsm) :
    (∀ job b, job.id ∉ mapKeys fsm.pendingJobs → job.id ∉ mapKeys fsm.onlineJobs →
      DisjointFsm (JobDispatched fsm job b)) ∧
    (∀ w, DisjointFsm (JobOnline fsm w).1) ∧
    (∀ w b, DisjointFsm (JobOffline fsm w b)) ∧
    (∀ w, DisjointFsm (JobDispatchFailed fsm w).1) ∧
    (∀ df, DisjointFsm (IterWaitAckJobs fsm df).1) ∧
    (∀ df, (∀ p ∈ fsm.pendingJobs, ∀ i, df p.2 = Except.ok i →
        i ∉ mapKeys fsm.pendingJobs ∧ i ∉ mapKeys fsm.onlineJobs) →
      DisjointFsm (IterPendingJobs fsm df).1) :=
  ⟨fun job b hp ho => JobDispatched_disjoint fsm job b hD hp ho,
    fun w => JobOnline_disjoint fsm w hD,
    fun w b => JobOffline_disjoint fsm w b hD,
    fun w => JobDispatchFailed_disjoint fsm w hD,
    fun df => IterWaitAckJobs_disjoint fsm df hD,
    fun df hfresh => IterPendingJobs_disjoint fsm df hD hfresh⟩

/-- A disjoint state with one pending, one waitAck and one online job. -/
def fsmMix : JobFsm :=
  ⟨[("p", metaP)], [("w", ⟨none, metaW, true⟩)], [("o", ⟨some ⟨"o"⟩, metaO, false⟩)]⟩

theorem jobFsm_disjointness_amended_witness :
    DisjointFsm (JobDispatched fsmMix metaB true) ∧
    DisjointFsm (JobOnline fsmMix ⟨"w"⟩).1 ∧
    DisjointFsm (JobOffline fsmMix ⟨"o"⟩ true) ∧
    DisjointFsm (JobDispatchFailed fsmMix ⟨"w"⟩).1 ∧
    DisjointFsm (IterWaitAckJobs fsmMix (fun m => Except.ok ("n-" ++ m.id))).1 ∧
    DisjointFsm (IterPendingJobs fsmMix (fun m => Except.ok ("n-" ++ m.id))).1 :=
  ⟨(jobFsm_disjointness_amended fsmMix (by decide)).1 metaB true (by decide) (by decide),
    (jobFsm_disjointness_amended fsmMix (by decide)).2.1 ⟨"w"⟩,
    (jobFsm_disjointness_amended fsmMix (by decide)).2.2.1 ⟨"o"⟩ true,
    (jobFsm_disjointness_amended fsmMix (by decide)).2.2.2.1 ⟨"w"⟩,
    (jobFsm_disjointness_amended fsmMix (by decide)).2.2.2.2.1
      (fun m => Except.ok ("n-" ++ m.id)),
    (jobFsm_disjointness_amended fsmMix (by decide)).2.2.2.2.2
      (fun m => Except.ok ("n-" ++ m.id))
      (by
        intro p hp i hi
        simp only [fsmMix, List.mem_singleton] at hp
        subst hp
        injection hi with h
        subst h
        decide)⟩

theorem iterPendingAux_stopsAtError (df : DispatchFn) (k : MasterID) (j : MasterMeta)
    (e : GoError) (rest : List (MasterID × MasterMeta)) (herr : df j = Except.error e) :
    ∀ (done : List (MasterID × MasterMeta)) (cur : JobFsm),
      cur.pendingJobs = done ++ (k, j) :: rest →
      (mapKeys (done ++ (k, j) :: rest)).Nodup →
      (∀ p ∈ done, ∃ i, df p.2 = Except.ok i) →
      (∀ p ∈ done, ∀ q ∈ done, ∀ i,
        df p.2 = Except.ok i → df q.2 = Except.ok i → p = q) →
      ∃ fsm₁,
        iterPendingAux df (done ++ (k, j) :: rest) cur = (fsm₁, some e) ∧
        fsm₁.pendingJobs = (k, j) :: rest ∧
        fsm₁.onlineJobs = cur.onlineJobs ∧
        (∀ i v, assocGet cur.waitAckJobs i = some v →
          (∀ p ∈ done, ∀ iP, df p.2 = Except.ok iP → iP ≠ i) →
          assocGet fsm₁.waitAckJobs i = some v) ∧
        (∀ p ∈ done, ∀ iP, df p.2 = Except.ok iP →
          assocGet fsm₁.waitAckJobs iP = some ⟨none, { p.2 with id := iP }, false⟩) := by
  intro done
  induction done with
  | nil =>
    intro cur hsplit hnodup _ _
    have hstep : iterPendingStep df cur (k, j) = (cur, some e) := by
      simp [iterPendingStep, herr]
    refine ⟨cur, ?_, ?_, rfl, ?_, ?_⟩
    · simp only [List.nil_append, iterPendingAux, hstep]
    · simpa using hsplit
    · intro i v hv _
      exact hv
    · intro p hp
      exact absurd hp (List.not_mem_nil p)
  | cons p done₁ ih =>
    intro cur hsplit hnodup hdone hids
    obtain ⟨i, hi⟩ := hdone p (List.mem_cons_self p done₁)
    obtain ⟨p₁, p₂⟩ := p
    have hi₂ : df p₂ = Except.ok i := hi
    have hkeys : mapKeys ((p₁, p₂) :: done₁ ++ (k, j) :: rest) =
        p₁ :: mapKeys (done₁ ++ (k, j) :: rest) := rfl
    have hnodup₂ : (p₁ :: mapKeys (done₁ ++ (k, j) :: rest)).Nodup := by
      rw [← hkeys]
      exact hnodup
    have hp₁notin : p₁ ∉ mapKeys (done₁ ++ (k, j) :: rest) :=
      (List.nodup_cons.mp hnodup₂).1
    have hnodup₁ : (mapKeys (done₁ ++ (k, j) :: rest)).Nodup :=
      (List.nodup_cons.mp hnodup₂).2
    have hsplit₂ : cur.pendingJobs = (p₁, p₂) :: (done₁ ++ (k, j) :: rest) := by
      simpa using hsplit
    have hdel : assocDel cur.pendingJobs p₁ = done₁ ++ (k, j) :: rest := by
      rw [hsplit₂, assocDel_cons, if_pos rfl, assocDel_of_not_mem hp₁notin]
    have hstep : iterPendingStep df cur (p₁, p₂) =
        ({ cur with
            pendingJobs := assocDel cur.pendingJobs p₁
            waitAckJobs :=
              assocPut cur.waitAckJobs i ⟨none, { p₂ with id := i }, false⟩ }, none) := by
      simp [iterPendingStep, hi₂]
    obtain ⟨fsm₁, Haux, Hpend, Honl, Hpres, Hdone⟩ :=
      ih ({ cur with
            pendingJobs := assocDel cur.pendingJobs p₁
            waitAckJobs :=
              assocPut cur.waitAckJobs i ⟨none, { p₂ with id := i }, false⟩ })
        (by simpa using hdel) hnodup₁
        (fun q hq => hdone q (List.mem_cons_of_mem _ hq))
        (fun q hq q₁ hq₁ i₁ h₁ h₂ =>
          hids q (List.mem_cons_of_mem _ hq) q₁ (List.mem_cons_of_mem _ hq₁) i₁ h₁ h₂)
    have hnotid : ∀ q ∈ done₁, ∀ iP, df q.2 = Except.ok iP → iP ≠ i := by
      intro q hq iP hiP heq
      subst heq
      have hqp : q = (p₁, p₂) :=
        hids q (List.mem_cons_of_mem _ hq) (p₁, p₂) (List.mem_cons_self _ done₁)
          iP hiP hi₂
      subst hqp
      exact hp₁notin (by
        rw [mem_mapKeys]
        exact ⟨p₂, List.mem_append_left _ hq⟩)
    refine ⟨fsm₁, ?_, Hpend, Honl, ?_, ?_⟩
    · rw [List.cons_append]
      simp only [iterPendingAux, hstep]
      exact Haux
    · intro i₁ v hv hnot
      have hne : i ≠ i₁ := hnot (p₁, p₂) (List.mem_cons_self _ done₁) i hi₂
      refine Hpres i₁ v ?_ ?_
      · show assocGet (assocPut cur.waitAckJobs i ⟨none, { p₂ with id := i }, false⟩) i₁ =
          some v
        rw [assocGet_put_ne (Ne.symm hne)]
        exact hv
      · intro q hq iP hiP
        exact hnot q (List.mem_cons_of_mem _ hq) iP hiP
    · intro q hq iQ hiQ
      rcases List.mem_cons.mp hq with rfl | hq₁
      · have hiQi : iQ = i := by
          have := hiQ.symm.trans hi₂
          exact (Except.ok.injEq _ _).mp this
        subst hiQi
        refine Hpres iQ ⟨none, { p₂ with id := iQ }, false⟩ ?_ hnotid
        exact assocGet_put_self
      · exact Hdone q hq₁ iQ hiQ

/-- C10: when `dispatchJobFn` fails on a visited pending job,
`IterPendingJobs` returns that error immediately; the failing job and
every not-yet-visited pending job are still in `pendingJobs`, the online
map is untouched, and every job dispatched earlier in the same call sits
in `waitAckJobs` under its new id (partial progress, no rollback).  The
entry list is split as `done ++ (k, j) :: rest` around the failing job,
matching the (arbitrary) Go map iteration order. -/
theorem IterPendingJobs_partialProgress (fsm : JobFsm) (df : DispatchFn)
    (done rest : List (MasterID × MasterMeta)) (k : MasterID) (j : MasterMeta)
    (e : GoError)
    (hsplit : fsm.pendingJobs = done ++ (k, j) :: rest)
    (hnodup : (mapKeys fsm.pendingJobs).Nodup)
    (hdone : ∀ p ∈ done, ∃ i, df p.2 = Except.ok i)
    (hids : ∀ p ∈ done, ∀ q ∈ done, ∀ i,
      df p.2 = Except.ok i → df q.2 = Except.ok i → p = q)
    (herr : df j = Except.error e) :
    ∃ fsm₁, IterPendingJobs fsm df = (fsm₁, some e) ∧
      fsm₁.pendingJobs = (k, j) :: rest ∧
      fsm₁.onlineJobs = fsm.onlineJobs ∧
      (∀ p ∈ done, ∀ i, df p.2 = Except.ok i →
        assocGet fsm₁.waitAckJobs i = some ⟨none, { p.2 with id := i }, false⟩) := by
  rw [hsplit] at hnodup
  obtain ⟨fsm₁, Haux, Hp, Ho, _, Hd⟩ :=
    iterPendingAux_stopsAtError df k j e rest herr done fsm hsplit hnodup hdone hids
  refine ⟨fsm₁, ?_, Hp, Ho, Hd⟩
  show iterPendingAux df fsm.pendingJobs fsm = (fsm₁, some e)
  rw [hsplit]
  exact Haux

theorem IterPendingJobs_partialProgress_witness :
    ∃ fsm₁,
      IterPendingJobs ⟨[("a", metaA), ("b", metaB), ("p", metaP)], [], []⟩
          (fun m => if m.id = "b" then Except.error GoError.clusterResourceNotEnough
            else Except.ok ("n-" ++ m.id)) =
        (fsm₁, some GoError.clusterResourceNotEnough) ∧
      fsm₁.pendingJobs = [("b", metaB), ("p", metaP)] ∧
      fsm₁.onlineJobs = [] ∧
      (∀ p ∈ [(("a" : MasterID), metaA)], ∀ i,
        (fun (m : MasterMeta) => if m.id = "b" then
            Except.error GoError.clusterResourceNotEnough
          else Except.ok ("n-" ++ m.id)) p.2 = Except.ok i →
        assocGet fsm₁.waitAckJobs i = some ⟨none, { p.2 with id := i }, false⟩) :=
  IterPendingJobs_partialProgress ⟨[("a", metaA), ("b", metaB), ("p", metaP)], [], []⟩
    (fun m => if m.id = "b" then Except.error GoError.clusterResourceNotEnough
      else Except.ok ("n-" ++ m.id))
    [("a", metaA)] [("p", metaP)] "b" metaB GoError.clusterResourceNotEnough
    rfl (by decide)
    (by
      intro p hp
      simp only [List.mem_singleton] at hp
      subst hp
      exact ⟨"n-a", rfl⟩)
    (by
      intro p hp q hq i _ _
      simp only [List.mem_singleton] at hp hq
      rw [hp, hq])
    rfl
